import Mathlib

set_option maxHeartbeats 1000000

/-
Verification of the quota-ledger / executor / pagination core of the
content-trend-advisor repository (src/services/etl/youtube_client.py and
src/services/etl/youtube_ingest.py), as a shallow embedding in Lean.

Conventions of the embedding:
* Python ints are `Int` (timestamps are seconds as `Int`).
* The wall clock and the "next local midnight in the configured timezone"
  computation of `_set_next_reset_to_local_midnight` are abstracted: every
  operation takes the current time `now : Int` and a function
  `midnight : Int → Int` mapping the current time to the next local
  midnight; the only fact the Python computation guarantees that proofs
  need is `∀ t, t < midnight t`, taken as a hypothesis where required.
* `dict` is an association list where lookup takes the first match and
  update conses a new binding (observationally equal to the Python dict).
* A raised exception is `Except.error`; the mutated-state-so-far is
  returned alongside, since the Python object keeps its state when a
  method raises.
-/

namespace CTA

/-- State of the `YoutubeQuotaManager` instance: the fields
`quota_remaining`, `quota_reset_time`, `_daily_cap` and `_unit_costs`
of youtube_client.py. -/
structure LedgerState where
  quota_remaining : Int
  quota_reset_time : Int
  daily_cap : Int
  unit_costs : List (String × Int)
  deriving DecidableEq, Repr

/-- The `_QuotaConfig.unit_costs` default table of youtube_client.py. -/
def defaultUnitCosts : List (String × Int) :=
  [("search.list", 100),
   ("videos.list", 1),
   ("channels.list", 1),
   ("playlistItems.list", 1),
   ("subscriptions.list", 1),
   ("commentThreads.list", 1),
   ("comments.list", 1),
   ("captions.list", 50),
   ("thubmnails.set", 50)]

/-- Embedding of `YoutubeQuotaManager.__init__`: remaining and cap start at 10000, the
cost table is the default one, and the reset instant is initialised to the
next local midnight. -/
def initLedger (midnight : Int → Int) (now : Int) : LedgerState :=
  { quota_remaining := 10000
    quota_reset_time := midnight now
    daily_cap := 10000
    unit_costs := defaultUnitCosts }

/-- Embedding of `YoutubeQuotaManager.estimate_cost`: cost of the endpoint (override, or
table lookup defaulting to 1) clamped at 0, times `max pages 1`. -/
def estimate_cost (s : LedgerState) (endpoint : String) (pages : Int)
    (cost_override : Option Int) : Int :=
  let cost := cost_override.getD ((s.unit_costs.lookup endpoint).getD 1)
  max cost 0 * max pages 1

/-- Embedding of `YoutubeQuotaManager._maybe_reset_locked` (with
`_set_next_reset_to_local_midnight` abstracted into `midnight`): when the
wall clock has passed the stored reset instant, refill `quota_remaining`
to the cap and recompute the reset instant. -/
def maybe_reset (midnight : Int → Int) (now : Int) (s : LedgerState) : LedgerState :=
  if s.quota_reset_time ≤ now then
    { s with quota_remaining := s.daily_cap, quota_reset_time := midnight now }
  else s

/-- Embedding of `YoutubeQuotaManager.will_fit`: estimate, lazily reset, compare. The
post-reset state is returned alongside the boolean. -/
def will_fit (midnight : Int → Int) (now : Int) (s : LedgerState) (endpoint : String)
    (pages : Int) (cost_override : Option Int) : Bool × LedgerState :=
  let need := estimate_cost s endpoint pages cost_override
  let s1 := maybe_reset midnight now s
  (decide (need ≤ s1.quota_remaining), s1)

/-- The message of the `QuotaExceeded` raised by `YoutubeQuotaManager.record`. -/
def recordQuotaMsg (add : Int) (endpoint : String) (pages : Int)
    (remaining cap : Int) : String :=
  "Need " ++ toString add ++ " units for " ++ endpoint ++ " (pages=" ++
    toString pages ++ ") but only " ++ toString remaining ++ "/" ++
    toString cap ++ " remain."

/-- Embedding of `YoutubeQuotaManager.record` (the spec's `reserve`): compute the cost,
lazily reset, and either raise `QuotaExceeded` (strict mode with
insufficient budget) or deduct the cost floored at 0 and return the
charged amount. -/
def record (midnight : Int → Int) (now : Int) (s : LedgerState) (endpoint : String)
    (pages : Int) (cost_override : Option Int) (strict : Bool) :
    Except String Int × LedgerState :=
  let add := estimate_cost s endpoint pages cost_override
  let s1 := maybe_reset midnight now s
  if strict = true ∧ s1.quota_remaining < add then
    (Except.error (recordQuotaMsg add endpoint pages s1.quota_remaining s1.daily_cap), s1)
  else
    (Except.ok add, { s1 with quota_remaining := max (s1.quota_remaining - add) 0 })

/-- Outcome of the scoped reservation `YoutubeQuotaManager.use`. -/
inductive UseOutcome
  | completed
  | reraised
  | quotaError (msg : String)
  deriving DecidableEq, Repr

/-- Embedding of `YoutubeQuotaManager.use`: reserve via `record` at time `now1`; run the
guarded work (modelled by `workFails`); if the work raises, roll the charge
back (at time `now2`, with its own lazy reset, capped at the cap) and
re-raise. -/
def useRun (midnight : Int → Int) (now1 now2 : Int) (s : LedgerState)
    (endpoint : String) (pages : Int) (cost_override : Option Int) (strict : Bool)
    (workFails : Bool) : UseOutcome × LedgerState :=
  match record midnight now1 s endpoint pages cost_override strict with
  | (Except.error m, s1) => (UseOutcome.quotaError m, s1)
  | (Except.ok charged, s1) =>
    if workFails then
      let s2 := maybe_reset midnight now2 s1
      (UseOutcome.reraised,
        { s2 with quota_remaining := min (s2.quota_remaining + charged) s2.daily_cap })
    else (UseOutcome.completed, s1)

/-- Embedding of `YoutubeQuotaManager.remaining`: lazily reset, then read. -/
def remainingAcc (midnight : Int → Int) (now : Int) (s : LedgerState) :
    Int × LedgerState :=
  let s1 := maybe_reset midnight now s
  (s1.quota_remaining, s1)

/-- Embedding of `YoutubeQuotaManager.used`: lazily reset, then `cap - remaining`. -/
def usedAcc (midnight : Int → Int) (now : Int) (s : LedgerState) :
    Int × LedgerState :=
  let s1 := maybe_reset midnight now s
  (s1.daily_cap - s1.quota_remaining, s1)

/-- Embedding of `YoutubeQuotaManager.set_daily_cap`: lazily reset, store the new cap,
clamp remaining down to it. -/
def set_daily_cap (midnight : Int → Int) (now : Int) (s : LedgerState)
    (cap : Int) : LedgerState :=
  let s1 := maybe_reset midnight now s
  { s1 with daily_cap := cap, quota_remaining := min s1.quota_remaining cap }

/-- Embedding of `YoutubeQuotaManager.set_cost`: store a per-endpoint cost. -/
def set_cost (s : LedgerState) (endpoint : String) (units : Int) : LedgerState :=
  { s with unit_costs := (endpoint, units) :: s.unit_costs }

/-- Embedding of `YoutubeQuotaManager.reset_now`: refill to the cap and recompute the
reset instant, unconditionally. -/
def reset_now (midnight : Int → Int) (now : Int) (s : LedgerState) : LedgerState :=
  { s with quota_remaining := s.daily_cap, quota_reset_time := midnight now }

/-- Substring containment on strings, via the underlying character lists. -/
def strContains (s sub : String) : Prop :=
  ∃ pre post : List Char, s.data = pre ++ (sub.data ++ post)

/-- The message of `_get_api_key`'s `ValueError` when `YOUTUBE_API_KEY` is
absent from the environment. -/
def apiKeyErrorMsg : String :=
  "YOUTUBE_API_KEY is not set. Please set this environment variable.\n" ++
    "Get your API key from: https://console.cloud.google.com/apis/credentials"

/-- The message of the `QuotaExceeded` raised by `_get_with_retry` when the
pre-flight `will_fit` check fails. -/
def insufficientQuotaMsg (endpoint : String) (remaining : Int) : String :=
  "Insufficient quota for " ++ endpoint ++ ". Remaining: " ++ toString remaining

/-- Errors surfaced by `_get_with_retry`: the `QuotaExceeded` of the
pre-flight check or reservation, the `ValueError` of `_get_api_key`, the
`HTTPError` of `resp.raise_for_status()` (carrying the status code), and
the `RuntimeError` after the loop (reachable only when `max_retries < 1`). -/
inductive FetchError
  | quotaExceeded (msg : String)
  | configError (msg : String)
  | httpError (status : Nat)
  | unreachableLoop
  deriving DecidableEq, Repr

/-- The retryable status set of `_get_with_retry`: 429, 500, 502, 503, 504. -/
def isTransient (c : Nat) : Bool :=
  c = 429 || c = 500 || c = 502 || c = 503 || c = 504

/-- The retry loop of `_get_with_retry`. `transport a` is the HTTP status of
the a-th physical attempt (1-based). `fuel + 1` is the number of attempts
still allowed, so `fuel = 0` is the `attempt == max_retries` case; `backoff`
is the current sleep. Returns (outcome, physical calls made, sleeps
performed in order); a successful call returns the attempt number, standing
for the decoded JSON body of that response. -/
def retryGo (transport : Nat → Nat) : Nat → Nat → Nat →
    Except FetchError Nat × Nat × List Nat
  | 0, _, _ => (Except.error FetchError.unreachableLoop, 0, [])
  | fuel + 1, attempt, backoff =>
    let st := transport attempt
    if isTransient st then
      if fuel = 0 then (Except.error (FetchError.httpError st), 1, [])
      else
        let r := retryGo transport fuel (attempt + 1) (backoff * 2)
        (r.1, r.2.1 + 1, backoff :: r.2.2)
    else if 400 ≤ st then (Except.error (FetchError.httpError st), 1, [])
    else (Except.ok attempt, 1, [])

/-- Embedding of `path.list` normalisation at the top of `_get_with_retry`:
`path.endswith('.list')` is computed on the underlying character list. -/
def normalizeEndpoint (path : String) : String :=
  if List.isSuffixOf ".list".data path.data then path else path ++ ".list"

/-- Result of one `_get_with_retry` call: outcome, number of physical HTTP
calls, backoff sleeps performed, and the ledger state afterwards. -/
structure FetchResult where
  result : Except FetchError Nat
  calls : Nat
  delays : List Nat
  ledger : LedgerState
  deriving Repr

/-- Embedding of `_get_with_retry`: check `will_fit` (raising `QuotaExceeded` with the
remaining count when it fails), then resolve the API key (raising the
configuration `ValueError` when absent), then enter the scoped reservation
`use(endpoint)` and run the retry loop; a failure inside the loop rolls the
reservation back. Time is modelled as the single instant `now` for the
whole call. -/
def get_with_retry (midnight : Int → Int) (now : Int) (s : LedgerState)
    (path : String) (apiKey : Option String) (transport : Nat → Nat)
    (max_retries : Nat) : FetchResult :=
  let endpoint := normalizeEndpoint path
  match will_fit midnight now s endpoint 1 none with
  | (false, s1) =>
    let r := remainingAcc midnight now s1
    { result := Except.error (FetchError.quotaExceeded (insufficientQuotaMsg endpoint r.1))
      calls := 0, delays := [], ledger := r.2 }
  | (true, s1) =>
    match apiKey with
    | none =>
      { result := Except.error (FetchError.configError apiKeyErrorMsg)
        calls := 0, delays := [], ledger := s1 }
    | some _ =>
      match record midnight now s1 endpoint 1 none true with
      | (Except.error m, s2) =>
        { result := Except.error (FetchError.quotaExceeded m)
          calls := 0, delays := [], ledger := s2 }
      | (Except.ok charged, s2) =>
        let r := retryGo transport max_retries 1 2
        match r.1 with
        | Except.ok v => { result := Except.ok v, calls := r.2.1, delays := r.2.2, ledger := s2 }
        | Except.error e =>
          let s3 := maybe_reset midnight now s2
          { result := Except.error e, calls := r.2.1, delays := r.2.2
            ledger := { s3 with
              quota_remaining := min (s3.quota_remaining + charged) s3.daily_cap } }

/-- One page of a paginated upstream response: the extracted per-item
identifiers (`none` when the `videoId` key is absent) and whether a
`nextPageToken` is present. -/
structure Page where
  items : List (Option String)
  hasNext : Bool
  deriving DecidableEq, Repr

/-- The per-page item loop of `search_video_ids` (and of
`list_channel_upload_ids`): skip an absent or empty identifier and any
identifier already in `seen`; otherwise add it to `seen` and append it to
`ids`. -/
def collectIds : List (Option String) → List String → List String →
    List String × List String
  | [], seen, ids => (seen, ids)
  | none :: rest, seen, ids => collectIds rest seen ids
  | some v :: rest, seen, ids =>
    if v ≠ "" ∧ v ∉ seen then collectIds rest (v :: seen) (ids ++ [v])
    else collectIds rest seen ids

/-- The pagination loop of `search_video_ids`. `up i` is the response to
the i-th request (0-based), `fuel` the remaining page budget. Returns the
accumulated identifiers and the number of requests issued. -/
def searchGo (up : Nat → Page) : Nat → Nat → List String → List String →
    List String × Nat
  | 0, _, _, ids => (ids, 0)
  | fuel + 1, i, seen, ids =>
    let page := up i
    if page.items.isEmpty then (ids, 1)
    else
      let c := collectIds page.items seen ids
      if page.hasNext then
        let r := searchGo up fuel (i + 1) c.1 c.2
        (r.1, r.2 + 1)
      else (c.2, 1)

/-- Embedding of `search_video_ids` over an abstract upstream: paginate up to
`max_pages`, dedupe identifiers across pages, stop on an empty page or a
missing continuation token. -/
def search_video_ids (up : Nat → Page) (max_pages : Nat) : List String × Nat :=
  searchGo up max_pages 0 [] []

/-- The items of the first `n` pages served from request index `i` on,
concatenated in order. -/
def pagesItemsFrom (up : Nat → Page) : Nat → Nat → List (Option String)
  | _, 0 => []
  | i, n + 1 => (up i).items ++ pagesItemsFrom up (i + 1) n

/-- Spec-side reference (from the spec's words): the present, non-empty
identifiers of an item list, in order. -/
def validIds (l : List (Option String)) : List String :=
  (l.filterMap id).filter (fun v => v ≠ "")

/-- Spec-side reference (from the spec's words): keep the first occurrence
of each identifier, preserving first-seen order. -/
def dedupFirstSeen (l : List String) : List String :=
  l.foldl (fun acc v => if v ∈ acc then acc else acc ++ [v]) []

/-- A response that terminates the pagination loop: an empty item list or
an absent continuation token. -/
def stops (up : Nat → Page) (i : Nat) : Bool :=
  (up i).items.isEmpty || !(up i).hasNext

/-- Python exceptions distinguished by `run_keywords_program`: a
`QuotaExceeded` (breaks the keyword loop) and any other exception
(continues with the next keyword). -/
inductive PyExc
  | quotaExceeded (msg : String)
  | otherExc (msg : String)
  deriving DecidableEq, Repr

/-- The pagination loop of `search_video_ids` over an upstream whose
requests can raise: a raised exception propagates out of the loop,
discarding the identifiers accumulated so far in this invocation. -/
def searchGoExc (up : Nat → Except PyExc Page) : Nat → Nat → List String →
    List String → Except PyExc (List String) × Nat
  | 0, _, _, ids => (Except.ok ids, 0)
  | fuel + 1, i, seen, ids =>
    match up i with
    | Except.error e => (Except.error e, 1)
    | Except.ok page =>
      if page.items.isEmpty then (Except.ok ids, 1)
      else
        let c := collectIds page.items seen ids
        if page.hasNext then
          let r := searchGoExc up fuel (i + 1) c.1 c.2
          (r.1, r.2 + 1)
        else (Except.ok c.2, 1)

/-- Embedding of `search_video_ids` over a raising upstream: the function installs no
exception handler of its own. -/
def search_video_ids_exc (up : Nat → Except PyExc Page) (max_pages : Nat) :
    Except PyExc (List String) × Nat :=
  searchGoExc up max_pages 0 [] []

/-- The keyword loop of `run_keywords_program` (youtube_ingest.py), with
each `search_video_ids` call abstracted by its outcome: on success, extend
`all_video_ids` with the identifiers not yet seen across keywords; on
`QuotaExceeded`, break (keeping what was collected); on any other
exception, continue with the next keyword. -/
def runKeywordsGo : List (Except PyExc (List String)) → List String →
    List String → List String
  | [], _, acc => acc
  | Except.ok ids :: rest, seen, acc =>
    let newIds := ids.filter (fun v => v ∉ seen)
    runKeywordsGo rest (seen ++ newIds) (acc ++ newIds)
  | Except.error (PyExc.quotaExceeded _) :: _, _, acc => acc
  | Except.error (PyExc.otherExc _) :: rest, seen, acc =>
    runKeywordsGo rest seen acc

/-- The list of video identifiers `run_keywords_program` accumulates (and
then hydrates) from the per-keyword search outcomes. -/
def run_keywords_ids (results : List (Except PyExc (List String))) : List String :=
  runKeywordsGo results [] []

/-- A Python `NameError`, as raised when `run_ingest_pipeline` reads the
never-assigned name `report`. -/
inductive PyError
  | nameError (name : String)
  deriving DecidableEq, Repr

/-- The fields of `IngestReport` that `run_ingest_pipeline` would populate. -/
structure IngestReportM where
  total_fetched : Nat
  total_after_filters : Nat
  total_inserted : Nat
  deriving DecidableEq, Repr

/-- Reading the name `report` from the function's scope: a `NameError` when
the name is unbound. -/
def readReport (scope : Option IngestReportM) : Except PyError IngestReportM :=
  match scope with
  | some r => Except.ok r
  | none => Except.error (PyError.nameError "report")

/-- Control skeleton of `run_ingest_pipeline` (youtube_ingest.py, lines
464-611): the function reads `report` at the insufficient-quota early
`return report`, at each per-program `report.program_breakdown[...]`
update, unconditionally at `report.total_fetched = ...` inside the `try`
block, and at `report.finalize()` in the `finally` block — but no
assignment to `report` exists anywhere in the function, so its scope entry
stays `none`. `quotaFits` is the result of the `quota_estimate['will_fit']`
check; the three booleans say which program branches run. An exception
raised in the `finally` block replaces the one from the `try` block. -/
def run_ingest_pipeline (quotaFits runKeywords runCompetitors runTrending : Bool) :
    Except PyError IngestReportM :=
  let reportScope : Option IngestReportM := none
  if quotaFits = false then
    readReport reportScope
  else
    let tryBlock : Except PyError IngestReportM := do
      let _ ← (if runKeywords then do
        let r ← readReport reportScope
        pure (some r) else pure none)
      let _ ← (if runCompetitors then do
        let r ← readReport reportScope
        pure (some r) else pure none)
      let _ ← (if runTrending then do
        let r ← readReport reportScope
        pure (some r) else pure none)
      readReport reportScope
    match tryBlock, readReport reportScope with
    | _, Except.error e => Except.error e
    | r, Except.ok _ => r

/-- Ledger invariant from the spec's data model: `0 ≤ remaining ≤ capacity`. -/
def LedgerInv (s : LedgerState) : Prop :=
  0 ≤ s.quota_remaining ∧ s.quota_remaining ≤ s.daily_cap

/-- A concrete next-midnight function for closed instances: one day later. -/
def mid86400 : Int → Int := fun t => t + 86400

/-- The concrete scenario ledger of C1: capacity 100, cost 100 for the
search operation, cost 1 for the videos operation. -/
def c1State : LedgerState :=
  { quota_remaining := 100, quota_reset_time := 1000, daily_cap := 100,
    unit_costs := [("search.list", 100), ("videos.list", 1)] }

/-- A ledger with zero remaining budget and unit cost 1 for the videos
operation. -/
def c2State : LedgerState :=
  { quota_remaining := 0, quota_reset_time := 1000, daily_cap := 100,
    unit_costs := [("videos.list", 1)] }

/-- A ledger with ample remaining budget, for executor runs. -/
def richState : LedgerState :=
  { quota_remaining := 10000, quota_reset_time := 1000, daily_cap := 10000,
    unit_costs := defaultUnitCosts }

/-- Upstream for the C8 dedupe scenario: page 3 (index 2) repeats three
identifiers from page 1 (index 0) and adds one new one; page 4 (index 3)
is empty. -/
def scen1Up : Nat → Page := fun i =>
  if i = 0 then { items := [some "a", some "b", some "c"], hasNext := true }
  else if i = 1 then { items := [some "d", some "e"], hasNext := true }
  else if i = 2 then { items := [some "a", some "b", some "c", some "f"], hasNext := true }
  else { items := [], hasNext := true }

/-- Upstream for the C8 page-limit scenario: one page of 50 identifiers
with no continuation token. -/
def scen2Up : Nat → Page := fun i =>
  if i = 0 then { items := (List.range 50).map (fun j => some (toString j)), hasNext := false }
  else { items := [], hasNext := false }

/-- Raising upstream for C3: the first request yields two identifiers, the
second raises `QuotaExceeded`. -/
def c3Up : Nat → Except PyExc Page := fun i =>
  if i = 0 then Except.ok { items := [some "a", some "b"], hasNext := true }
  else Except.error (PyExc.quotaExceeded "quota")

/-- A depleted ledger used for C10: search costs 100, nothing remains. -/
def c10StateA : LedgerState :=
  { quota_remaining := 0, quota_reset_time := 1000, daily_cap := 100,
    unit_costs := [("search.list", 100)] }

/-- The same depleted ledger as `c10StateA` except for a different stored
reset instant. -/
def c10StateB : LedgerState :=
  { quota_remaining := 0, quota_reset_time := 999999, daily_cap := 100,
    unit_costs := [("search.list", 100)] }

/-! Helper lemmas about the ledger. -/

theorem estimate_cost_nonneg (s : LedgerState) (endpoint : String) (pages : Int)
    (ov : Option Int) : 0 ≤ estimate_cost s endpoint pages ov := by
  unfold estimate_cost
  exact mul_nonneg (le_max_right _ _) (le_trans zero_le_one (le_max_right _ _))

theorem maybe_reset_of_lt {now : Int} {s : LedgerState} (midnight : Int → Int)
    (h : now < s.quota_reset_time) : maybe_reset midnight now s = s := by
  unfold maybe_reset
  rw [if_neg (by omega)]

theorem maybe_reset_of_le {now : Int} {s : LedgerState} (midnight : Int → Int)
    (h : s.quota_reset_time ≤ now) :
    maybe_reset midnight now s =
      { s with quota_remaining := s.daily_cap, quota_reset_time := midnight now } := by
  unfold maybe_reset
  rw [if_pos h]

theorem maybe_reset_idem (midnight : Int → Int) (now : Int) (s : LedgerState) :
    maybe_reset midnight now (maybe_reset midnight now s) = maybe_reset midnight now s := by
  by_cases h : s.quota_reset_time ≤ now
  · rw [maybe_reset_of_le midnight h]
    set s1 : LedgerState :=
      { s with quota_remaining := s.daily_cap, quota_reset_time := midnight now } with hs1
    by_cases h2 : s1.quota_reset_time ≤ now
    · rw [maybe_reset_of_le midnight h2]
    · rw [maybe_reset_of_lt midnight (by omega)]
  · have h1 := maybe_reset_of_lt midnight (show now < s.quota_reset_time from by omega)
    rw [h1]
    exact h1

theorem inv_maybe_reset (midnight : Int → Int) (now : Int) {s : LedgerState}
    (h : LedgerInv s) :
    LedgerInv (maybe_reset midnight now s) ∧
      s.quota_remaining ≤ (maybe_reset midnight now s).quota_remaining := by
  unfold LedgerInv at *
  unfold maybe_reset
  split
  · simp only []
    omega
  · omega

theorem record_snd (midnight : Int → Int) (now : Int) (s : LedgerState)
    (endpoint : String) (pages : Int) (ov : Option Int) (strict : Bool) :
    (record midnight now s endpoint pages ov strict).2 = maybe_reset midnight now s ∨
      (record midnight now s endpoint pages ov strict).2 =
        { maybe_reset midnight now s with
            quota_remaining :=
              max ((maybe_reset midnight now s).quota_remaining -
                estimate_cost s endpoint pages ov) 0 } := by
  simp only [record]
  split
  · exact Or.inl rfl
  · exact Or.inr rfl

theorem record_fst (midnight : Int → Int) (now : Int) (s : LedgerState)
    (endpoint : String) (pages : Int) (ov : Option Int) (strict : Bool) (c : Int)
    (h : (record midnight now s endpoint pages ov strict).1 = Except.ok c) :
    c = estimate_cost s endpoint pages ov := by
  simp only [record] at h
  split at h
  · exact absurd h (by simp)
  · simpa using h.symm

theorem inv_record (midnight : Int → Int) (now : Int) {s : LedgerState}
    (endpoint : String) (pages : Int) (ov : Option Int) (strict : Bool)
    (h : LedgerInv s) :
    LedgerInv ((record midnight now s endpoint pages ov strict).2) := by
  have h1 := (inv_maybe_reset midnight now (s := s) h).1
  have ha := estimate_cost_nonneg s endpoint pages ov
  rcases record_snd midnight now s endpoint pages ov strict with h2 | h2 <;> rw [h2]
  · exact h1
  · unfold LedgerInv at *
    simp only []
    omega

theorem inv_useRun (midnight : Int → Int) (now1 now2 : Int) {s : LedgerState}
    (endpoint : String) (pages : Int) (ov : Option Int) (strict workFails : Bool)
    (h : LedgerInv s) :
    LedgerInv ((useRun midnight now1 now2 s endpoint pages ov strict workFails).2) := by
  have hrec := inv_record midnight now1 endpoint pages ov strict h
  unfold useRun
  rcases hr : record midnight now1 s endpoint pages ov strict with ⟨e, s1⟩
  have hs1 : LedgerInv s1 := by rw [hr] at hrec; exact hrec
  rcases e with m | charged
  · exact hs1
  · have hch : charged = estimate_cost s endpoint pages ov :=
      record_fst midnight now1 s endpoint pages ov strict charged (by rw [hr])
    have ha : 0 ≤ charged := hch ▸ estimate_cost_nonneg s endpoint pages ov
    have h2 := (inv_maybe_reset midnight now2 (s := s1) hs1).1
    rcases workFails with _ | _
    · exact hs1
    · show LedgerInv { maybe_reset midnight now2 s1 with
        quota_remaining := min ((maybe_reset midnight now2 s1).quota_remaining + charged)
          (maybe_reset midnight now2 s1).daily_cap }
      unfold LedgerInv at h2 ⊢
      simp only []
      omega

theorem recordQuotaMsg_contains_needed (add : Int) (ep : String) (pg rem cap : Int) :
    strContains (recordQuotaMsg add ep pg rem cap) (toString add) := by
  refine ⟨"Need ".data,
    (" units for " ++ ep ++ " (pages=" ++ toString pg ++ ") but only " ++
      toString rem ++ "/" ++ toString cap ++ " remain.").data, ?_⟩
  simp [recordQuotaMsg, String.data_append, List.append_assoc]

theorem recordQuotaMsg_contains_remaining (add : Int) (ep : String) (pg rem cap : Int) :
    strContains (recordQuotaMsg add ep pg rem cap) (toString rem) := by
  refine ⟨("Need " ++ toString add ++ " units for " ++ ep ++ " (pages=" ++
      toString pg ++ ") but only ").data,
    ("/" ++ toString cap ++ " remain.").data, ?_⟩
  simp [recordQuotaMsg, String.data_append, List.append_assoc]

/-! Claim theorems. -/

/-- C1: `YoutubeQuotaManager.record` (the spec's `reserve`), for every
ledger state and operation: in strict mode, when the estimated cost
exceeds the (lazily reset) remaining budget, it raises `QuotaExceeded`
whose message contains the requested and remaining unit counts, mutating
nothing beyond the lazy reset; otherwise — including non-strict mode with
an insufficient budget — it deducts the cost from `remaining` floored at 0
and returns the charged amount. Concretely, with capacity 100 and search
cost 100: the first reserve returns 100 leaving remaining = 0, a second
strict reserve raises `QuotaExceeded` and changes nothing, and a
subsequent non-strict reserve of cost 1 returns 1 and leaves
remaining = 0. -/
theorem record_reserve_c1 (midnight : Int → Int) (now : Int) (s : LedgerState)
    (endpoint : String) (pages : Int) (ov : Option Int) (strict : Bool) :
    (strict = true →
      (maybe_reset midnight now s).quota_remaining < estimate_cost s endpoint pages ov →
      record midnight now s endpoint pages ov strict =
        (Except.error (recordQuotaMsg (estimate_cost s endpoint pages ov) endpoint pages
            (maybe_reset midnight now s).quota_remaining
            (maybe_reset midnight now s).daily_cap),
          maybe_reset midnight now s) ∧
      strContains (recordQuotaMsg (estimate_cost s endpoint pages ov) endpoint pages
          (maybe_reset midnight now s).quota_remaining
          (maybe_reset midnight now s).daily_cap)
        (toString (estimate_cost s endpoint pages ov)) ∧
      strContains (recordQuotaMsg (estimate_cost s endpoint pages ov) endpoint pages
          (maybe_reset midnight now s).quota_remaining
          (maybe_reset midnight now s).daily_cap)
        (toString (maybe_reset midnight now s).quota_remaining)) ∧
    (¬ (strict = true ∧
        (maybe_reset midnight now s).quota_remaining < estimate_cost s endpoint pages ov) →
      record midnight now s endpoint pages ov strict =
        (Except.ok (estimate_cost s endpoint pages ov),
          { maybe_reset midnight now s with
              quota_remaining :=
                max ((maybe_reset midnight now s).quota_remaining -
                  estimate_cost s endpoint pages ov) 0 })) ∧
    (record mid86400 0 c1State "search.list" 1 none true).1 = Except.ok 100 ∧
    (record mid86400 0 c1State "search.list" 1 none true).2.quota_remaining = 0 ∧
    (record mid86400 0 (record mid86400 0 c1State "search.list" 1 none true).2
        "search.list" 1 none true).1 =
      Except.error (recordQuotaMsg 100 "search.list" 1 0 100) ∧
    (record mid86400 0 (record mid86400 0 c1State "search.list" 1 none true).2
        "search.list" 1 none true).2 =
      (record mid86400 0 c1State "search.list" 1 none true).2 ∧
    (record mid86400 0 (record mid86400 0 c1State "search.list" 1 none true).2
        "videos.list" 1 none false).1 = Except.ok 1 ∧
    (record mid86400 0 (record mid86400 0 c1State "search.list" 1 none true).2
        "videos.list" 1 none false).2.quota_remaining = 0 := by
  refine ⟨?_, ?_, rfl, rfl, rfl, rfl, rfl, rfl⟩
  · intro hs hlt
    refine ⟨?_, recordQuotaMsg_contains_needed _ _ _ _ _,
      recordQuotaMsg_contains_remaining _ _ _ _ _⟩
    simp only [record]
    rw [if_pos ⟨hs, hlt⟩]
  · intro hc
    simp only [record]
    rw [if_neg hc]

/-- Witness for C1 at a concrete input: a strict reserve of cost 1 against
an empty budget raises with the exact message. -/
theorem record_reserve_c1_witness :
    record mid86400 0 c2State "videos.list" 1 none true =
      (Except.error (recordQuotaMsg 1 "videos.list" 1 0 100), c2State) ∧
    strContains (recordQuotaMsg 1 "videos.list" 1 0 100) (toString (1 : Int)) := by
  have h := (record_reserve_c1 mid86400 0 c2State "videos.list" 1 none true).1
    rfl (by decide)
  exact ⟨h.1, h.2.1⟩

/-- C2 counterexample: the claim fails for a non-strict scoped reservation
whose cost exceeds `remaining`. With remaining = 0, capacity = 100 and
cost 1, a non-strict `use` around failing work charges 1 (deducting only 0
because of the floor) and then rolls back 1, leaving remaining = 1 ≠ 0:
the pre-reservation value is not restored. -/
theorem use_rollback_c2_counterexample :
    c2State.quota_remaining = 0 ∧
    (useRun mid86400 0 0 c2State "videos.list" 1 none false true).1 =
      UseOutcome.reraised ∧
    (useRun mid86400 0 0 c2State "videos.list" 1 none false true).2.quota_remaining = 1 := by
  decide

/-- C2 (amended): for every ledger state with 0 ≤ remaining ≤ capacity, no
intervening reset, and a reservation whose estimated cost does not exceed
`remaining` (always the case when the strict reservation taken by
`YoutubeQuotaManager.use` with its default `strict=True` succeeds),
reserving and then releasing — as `use` does when the guarded work raises —
re-raises the work's exception and restores the ledger exactly, so the
scoped reservation has net-zero effect on `remaining`. In non-strict mode
with cost exceeding `remaining`, the rollback instead leaves `remaining`
above its pre-reservation value (see the counterexample). -/
theorem use_rollback_c2 (midnight : Int → Int) (now1 now2 : Int) (s : LedgerState)
    (endpoint : String) (pages : Int) (ov : Option Int) (strict : Bool)
    (h0 : 0 ≤ s.quota_remaining) (hcap : s.quota_remaining ≤ s.daily_cap)
    (hn1 : now1 < s.quota_reset_time) (hn2 : now2 < s.quota_reset_time)
    (hfit : estimate_cost s endpoint pages ov ≤ s.quota_remaining) :
    useRun midnight now1 now2 s endpoint pages ov strict true =
      (UseOutcome.reraised, s) := by
  have ha := estimate_cost_nonneg s endpoint pages ov
  have hr1 : maybe_reset midnight now1 s = s := maybe_reset_of_lt midnight hn1
  have hcond : ¬ (strict = true ∧ s.quota_remaining < estimate_cost s endpoint pages ov) := by
    rintro ⟨-, h⟩
    omega
  have hr2 : maybe_reset midnight now2
        { s with quota_remaining := max (s.quota_remaining -
            estimate_cost s endpoint pages ov) 0 } =
      { s with quota_remaining := max (s.quota_remaining -
          estimate_cost s endpoint pages ov) 0 } := by
    apply maybe_reset_of_lt
    simpa using hn2
  simp only [useRun, record, hr1, if_neg hcond]
  rw [hr2]
  have hmin : min (max (s.quota_remaining - estimate_cost s endpoint pages ov) 0 +
      estimate_cost s endpoint pages ov) s.daily_cap = s.quota_remaining := by omega
  rw [if_pos trivial]
  simp only [Prod.mk.injEq]
  refine ⟨trivial, ?_⟩
  cases s
  simp_all

/-- Witness for C2 (amended) at a concrete input: a strict reservation of
cost 100 against a full budget of 100, rolled back, restores the state. -/
theorem use_rollback_c2_witness :
    useRun mid86400 0 0 c1State "search.list" 1 none true true =
      (UseOutcome.reraised, c1State) :=
  use_rollback_c2 mid86400 0 0 c1State "search.list" 1 none true
    (by decide) (by decide) (by decide) (by decide) (by decide)

/-- C6: the lazy reset is idempotent and a pure function of the current
time. An access strictly before `reset_at` leaves the ledger (and in
particular `remaining`) unchanged by the reset check, and the `remaining`
accessor then returns the stored value; an access at or after `reset_at`
sets `remaining` to the capacity and stores `midnight now` (the next local
midnight) as the new reset instant; any further access strictly before
that new instant changes nothing more; and re-running the reset check at
the same instant is a no-op. -/
theorem lazy_reset_c6 (midnight : Int → Int) (now now2 : Int) (s : LedgerState) :
    (now < s.quota_reset_time →
      maybe_reset midnight now s = s ∧
      remainingAcc midnight now s = (s.quota_remaining, s)) ∧
    (s.quota_reset_time ≤ now →
      (maybe_reset midnight now s).quota_remaining = s.daily_cap ∧
      (maybe_reset midnight now s).quota_reset_time = midnight now ∧
      (now2 < midnight now →
        maybe_reset midnight now2 (maybe_reset midnight now s) =
          maybe_reset midnight now s ∧
        remainingAcc midnight now2 (maybe_reset midnight now s) =
          (s.daily_cap, maybe_reset midnight now s))) ∧
    maybe_reset midnight now (maybe_reset midnight now s) = maybe_reset midnight now s := by
  refine ⟨?_, ?_, maybe_reset_idem midnight now s⟩
  · intro h
    have h1 := maybe_reset_of_lt midnight h
    exact ⟨h1, by unfold remainingAcc; rw [h1]⟩
  · intro h
    have h1 := maybe_reset_of_le midnight h
    refine ⟨by rw [h1], by rw [h1], ?_⟩
    intro h2
    have h3 : maybe_reset midnight now2 (maybe_reset midnight now s) =
        maybe_reset midnight now s := by
      apply maybe_reset_of_lt
      rw [h1]
      simpa using h2
    refine ⟨h3, ?_⟩
    unfold remainingAcc
    rw [h3, h1]

/-- Witness for C6 at a concrete input: before the stored reset instant
the accessor changes nothing; at the instant it refills to the cap. -/
theorem lazy_reset_c6_witness :
    remainingAcc mid86400 0 c2State = ((0 : Int), c2State) ∧
    (maybe_reset mid86400 1000 c2State).quota_remaining = 100 := by
  refine ⟨?_, ?_⟩
  · exact ((lazy_reset_c6 mid86400 0 0 c2State).1 (by decide)).2
  · exact ((lazy_reset_c6 mid86400 1000 0 c2State).2.1 (by decide)).1

/-- C7 counterexample: the invariant 0 ≤ remaining ≤ capacity is not
preserved by `set_daily_cap` when it is handed a negative cap: from the
freshly initialised ledger, `set_daily_cap(-1)` clamps `remaining` to -1,
which is negative. -/
theorem ledger_inv_c7_counterexample :
    LedgerInv (initLedger mid86400 0) ∧
    (set_daily_cap mid86400 0 (initLedger mid86400 0) (-1)).quota_remaining = -1 ∧
    ¬ LedgerInv (set_daily_cap mid86400 0 (initLedger mid86400 0) (-1)) := by
  refine ⟨⟨by decide, by decide⟩, by decide, ?_⟩
  intro h
  have h1 := h.1
  revert h1
  decide

/-- C7 (amended): 0 ≤ remaining ≤ capacity holds for the freshly
initialised ledger and is preserved by the lazy reset (which moreover only
ever moves `remaining` upward, to the capacity), by `will_fit`, by
`record` in strict and non-strict mode, by the `use` rollback, by
`set_cost`, by `reset_now`, and by `set_daily_cap` provided the new cap is
nonnegative; with a negative cap, `set_daily_cap` drives `remaining`
negative (see the counterexample). -/
theorem ledger_inv_c7 (midnight : Int → Int) (now now2 : Int) (s : LedgerState)
    (endpoint : String) (pages : Int) (ov : Option Int) (strict workFails : Bool)
    (cap units : Int) (hInv : LedgerInv s) :
    LedgerInv (initLedger midnight now) ∧
    LedgerInv (maybe_reset midnight now s) ∧
    s.quota_remaining ≤ (maybe_reset midnight now s).quota_remaining ∧
    LedgerInv (will_fit midnight now s endpoint pages ov).2 ∧
    LedgerInv ((record midnight now s endpoint pages ov strict).2) ∧
    LedgerInv ((useRun midnight now now2 s endpoint pages ov strict workFails).2) ∧
    (0 ≤ cap → LedgerInv (set_daily_cap midnight now s cap)) ∧
    LedgerInv (set_cost s endpoint units) ∧
    LedgerInv (reset_now midnight now s) := by
  have hm := inv_maybe_reset midnight now (s := s) hInv
  refine ⟨⟨show (0 : Int) ≤ 10000 from by norm_num,
    show (10000 : Int) ≤ 10000 from le_refl _⟩, hm.1, hm.2, ?_, ?_, ?_, ?_, ?_, ?_⟩
  · unfold will_fit
    exact hm.1
  · exact inv_record midnight now endpoint pages ov strict hInv
  · exact inv_useRun midnight now now2 endpoint pages ov strict workFails hInv
  · intro hcap
    have h1 := hm.1
    unfold LedgerInv at h1 ⊢
    unfold set_daily_cap
    simp only []
    omega
  · unfold LedgerInv at hInv ⊢
    unfold set_cost
    simpa using hInv
  · unfold LedgerInv at hInv ⊢
    unfold reset_now
    simp only []
    omega

/-- Witness for C7 (amended) at a concrete input: the invariant holds
after a strict record of the search cost against the full initial ledger
and after `set_daily_cap 50`. -/
theorem ledger_inv_c7_witness :
    LedgerInv ((record mid86400 0 richState "search.list" 1 none true).2) ∧
    LedgerInv (set_daily_cap mid86400 0 richState 50) := by
  have h := ledger_inv_c7 mid86400 0 0 richState "search.list" 1 none true false
    50 1 (by exact ⟨by decide, by decide⟩)
  exact ⟨h.2.2.2.2.1, h.2.2.2.2.2.2.1 (by decide)⟩

theorem collectIds_append (a b : List (Option String)) (seen ids : List String) :
    collectIds (a ++ b) seen ids =
      collectIds b (collectIds a seen ids).1 (collectIds a seen ids).2 := by
  induction a generalizing seen ids with
  | nil => rfl
  | cons o rest ih =>
    cases o with
    | none => simpa [collectIds] using ih seen ids
    | some v =>
      simp only [List.cons_append, collectIds]
      split
      · exact ih _ _
      · exact ih _ _

theorem searchGo_ids (up : Nat → Page) :
    ∀ (fuel i : Nat) (seen ids : List String),
      (searchGo up fuel i seen ids).1 =
        (collectIds (pagesItemsFrom up i (searchGo up fuel i seen ids).2) seen ids).2 := by
  intro fuel
  induction fuel with
  | zero => intro i seen ids; rfl
  | succ n ih =>
    intro i seen ids
    simp only [searchGo]
    by_cases hempty : (up i).items.isEmpty
    · rw [if_pos hempty]
      simp only [pagesItemsFrom]
      rw [List.isEmpty_iff.mp hempty]
      rfl
    · rw [if_neg hempty]
      by_cases hnext : (up i).hasNext
      · rw [if_pos hnext]
        simp only [pagesItemsFrom, collectIds_append]
        exact ih (i + 1) _ _
      · rw [if_neg hnext]
        simp only [pagesItemsFrom, collectIds_append]
        rfl

theorem searchGo_stop (up : Nat → Page) :
    ∀ (fuel i : Nat) (seen ids : List String),
      (searchGo up fuel i seen ids).2 ≤ fuel ∧
      (∀ k, k + 1 < (searchGo up fuel i seen ids).2 → stops up (i + k) = false) ∧
      ((searchGo up fuel i seen ids).2 < fuel →
        1 ≤ (searchGo up fuel i seen ids).2 ∧
        stops up (i + (searchGo up fuel i seen ids).2 - 1) = true) := by
  intro fuel
  induction fuel with
  | zero =>
    intro i seen ids
    exact ⟨le_refl _, fun k hk => absurd hk (by simp [searchGo]), fun h => absurd h (by simp [searchGo])⟩
  | succ n ih =>
    intro i seen ids
    simp only [searchGo]
    by_cases hempty : (up i).items.isEmpty
    · rw [if_pos hempty]
      refine ⟨by omega, fun k hk => absurd hk (by omega), fun _ => ⟨le_refl _, ?_⟩⟩
      simp [stops, hempty]
    · rw [if_neg hempty]
      by_cases hnext : (up i).hasNext
      · rw [if_pos hnext]
        obtain ⟨ih1, ih2, ih3⟩ := ih (i + 1)
          (collectIds (up i).items seen ids).1 (collectIds (up i).items seen ids).2
        refine ⟨by omega, ?_, ?_⟩
        · intro k hk
          cases k with
          | zero => simp [stops, hempty, hnext]
          | succ j =>
            have := ih2 j (by omega)
            have harith : i + 1 + j = i + (j + 1) := by omega
            rwa [harith] at this
        · intro hlt
          obtain ⟨h1, h2⟩ := ih3 (by omega)
          refine ⟨by omega, ?_⟩
          have harith : i + 1 + (searchGo up n (i + 1)
              (collectIds (up i).items seen ids).1 (collectIds (up i).items seen ids).2).2 - 1 =
            i + ((searchGo up n (i + 1) (collectIds (up i).items seen ids).1
              (collectIds (up i).items seen ids).2).2 + 1) - 1 := by omega
          rwa [harith] at h2
      · rw [if_neg hnext]
        refine ⟨by omega, fun k hk => absurd hk (by omega), fun _ => ⟨le_refl _, ?_⟩⟩
        simp [stops, hnext]

theorem collectIds_dedup :
    ∀ (l : List (Option String)) (seen ids : List String),
      (∀ v, v ∈ seen ↔ v ∈ ids) →
      (collectIds l seen ids).2 =
        (validIds l).foldl (fun acc v => if v ∈ acc then acc else acc ++ [v]) ids ∧
      (∀ v, v ∈ (collectIds l seen ids).1 ↔ v ∈ (collectIds l seen ids).2) := by
  intro l
  induction l with
  | nil => intro seen ids h; exact ⟨rfl, h⟩
  | cons o rest ih =>
    intro seen ids h
    cases o with
    | none => simpa [collectIds, validIds] using ih seen ids h
    | some v =>
      by_cases hv : v = ""
      · subst hv
        have hval : validIds (some "" :: rest) = validIds rest := by simp [validIds]
        have hcol : collectIds (some "" :: rest) seen ids = collectIds rest seen ids := by
          simp [collectIds]
        rw [hval, hcol]
        exact ih seen ids h
      · have hval : validIds (some v :: rest) = v :: validIds rest := by
          simp [validIds, hv]
        rw [hval]
        by_cases hseen : v ∈ seen
        · have hcol : collectIds (some v :: rest) seen ids = collectIds rest seen ids := by
            simp [collectIds, hseen]
          have hin : v ∈ ids := (h v).mp hseen
          rw [hcol]
          simpa [hin] using ih seen ids h
        · have hcol : collectIds (some v :: rest) seen ids =
              collectIds rest (v :: seen) (ids ++ [v]) := by
            simp [collectIds, hv, hseen]
          have hnin : v ∉ ids := fun hmem => hseen ((h v).mpr hmem)
          rw [hcol]
          have hinv : ∀ w, w ∈ v :: seen ↔ w ∈ ids ++ [v] := by
            intro w
            simp [h w]
            tauto
          simpa [hnin] using ih (v :: seen) (ids ++ [v]) hinv

/-- C8: the pagination of `search_video_ids` returns exactly the
first-seen-order deduplication of the present, non-empty identifiers of
the pages it consumed; it consumes at most `max_pages` pages, every
consumed page except possibly the last carried items and a continuation
token, and if it stopped before the page limit then the last consumed
page was empty or carried no token — so no request is issued beyond the
stopping point. Concretely: with page 3 repeating three identifiers of
page 1 and page 4 empty, it returns the six unique identifiers of pages
1-3 in first-seen order after exactly 4 requests (no fifth request); and
with `max_pages = 2` and a single page of 50 identifiers without a
continuation token, it returns exactly those 50 after a single request. -/
theorem pagination_c8 (up : Nat → Page) (max_pages : Nat) :
    (search_video_ids up max_pages).1 =
      dedupFirstSeen (validIds (pagesItemsFrom up 0 (search_video_ids up max_pages).2)) ∧
    (search_video_ids up max_pages).2 ≤ max_pages ∧
    (∀ k, k + 1 < (search_video_ids up max_pages).2 → stops up k = false) ∧
    ((search_video_ids up max_pages).2 < max_pages →
      1 ≤ (search_video_ids up max_pages).2 ∧
      stops up ((search_video_ids up max_pages).2 - 1) = true) ∧
    (search_video_ids scen1Up 10).1 = ["a", "b", "c", "d", "e", "f"] ∧
    (search_video_ids scen1Up 10).2 = 4 ∧
    (search_video_ids scen2Up 2).1 = (List.range 50).map (fun j => toString j) ∧
    (search_video_ids scen2Up 2).2 = 1 := by
  obtain ⟨h1, h2, h3⟩ := searchGo_stop up max_pages 0 [] []
  refine ⟨?_, h1, ?_, ?_, by decide, by decide, by decide, by decide⟩
  · have hids := searchGo_ids up max_pages 0 [] []
    have hded := (collectIds_dedup
      (pagesItemsFrom up 0 (searchGo up max_pages 0 [] []).2) [] []
      (by intro v; simp)).1
    unfold search_video_ids
    rw [hids, hded]
    rfl
  · intro k hk
    simpa using h2 k hk
  · intro hlt
    obtain ⟨ha, hb⟩ := h3 hlt
    exact ⟨ha, by simpa using hb⟩

/-- Witness for C8 at a concrete input: in the dedupe scenario the first
consumed page is non-stopping and the last consumed page (the empty page
4) is the stopping one. -/
theorem pagination_c8_witness :
    stops scen1Up 0 = false ∧ stops scen1Up 3 = true := by
  have h := pagination_c8 scen1Up 10
  exact ⟨h.2.2.1 0 (by decide), (h.2.2.2.1 (by decide)).2⟩

/-- C3 counterexample: a `QuotaExceeded` on the second page of
`search_video_ids` propagates out of the runner, which therefore does not
return the identifiers already collected from the first page. -/
theorem search_propagates_c3_counterexample :
    (search_video_ids_exc c3Up 10).1 = Except.error (PyExc.quotaExceeded "quota") ∧
    (search_video_ids_exc c3Up 10).1 ≠ Except.ok ["a", "b"] := by
  refine ⟨rfl, ?_⟩
  intro h
  rw [show (search_video_ids_exc c3Up 10).1 =
    Except.error (PyExc.quotaExceeded "quota") from rfl] at h
  exact Except.noConfusion h

theorem runKeywordsGo_quota (m : String) (rest : List (Except PyExc (List String))) :
    ∀ (pre : List (Except PyExc (List String))) (seen acc : List String),
      (∀ r ∈ pre, ∀ msg, r ≠ Except.error (PyExc.quotaExceeded msg)) →
      runKeywordsGo (pre ++ Except.error (PyExc.quotaExceeded m) :: rest) seen acc =
        runKeywordsGo pre seen acc := by
  intro pre
  induction pre with
  | nil => intro seen acc _; rfl
  | cons r pre ih =>
    intro seen acc h
    have hr := h r (List.mem_cons_self r pre)
    have hrest : ∀ x ∈ pre, ∀ msg, x ≠ Except.error (PyExc.quotaExceeded msg) :=
      fun x hx => h x (List.mem_cons_of_mem r hx)
    cases r with
    | ok ids => simpa [runKeywordsGo] using ih _ _ hrest
    | error e =>
      cases e with
      | quotaExceeded msg => exact absurd rfl (hr msg)
      | otherExc msg => simpa [runKeywordsGo] using ih _ _ hrest

/-- C3 (amended): a `QuotaExceeded` raised inside a paginated runner such
as `search_video_ids` propagates to the caller and discards that
invocation's partially collected identifiers (see the counterexample);
partial results are preserved one level up, in `run_keywords_program`:
when the search for some keyword raises `QuotaExceeded`, the keyword loop
stops and the identifier list accumulated from the keywords processed
before the failure is kept and returned for hydration — searches scheduled
after the failing one have no effect on the result, and non-quota
exceptions merely skip their keyword. -/
theorem keywords_partial_c3 (pre rest : List (Except PyExc (List String))) (m : String)
    (hpre : ∀ r ∈ pre, ∀ msg, r ≠ Except.error (PyExc.quotaExceeded msg)) :
    run_keywords_ids (pre ++ Except.error (PyExc.quotaExceeded m) :: rest) =
      run_keywords_ids pre :=
  runKeywordsGo_quota m rest pre [] [] hpre

/-- Witness for C3 (amended) at a concrete input: two successful keyword
searches and one failing with a non-quota error, then a `QuotaExceeded`,
then a further search whose results are dropped. -/
theorem keywords_partial_c3_witness :
    run_keywords_ids [Except.ok ["a", "b"], Except.error (PyExc.otherExc "x"),
        Except.ok ["b", "c"], Except.error (PyExc.quotaExceeded "q"), Except.ok ["z"]] =
      run_keywords_ids [Except.ok ["a", "b"], Except.error (PyExc.otherExc "x"),
        Except.ok ["b", "c"]] := by
  have h := keywords_partial_c3
    [Except.ok ["a", "b"], Except.error (PyExc.otherExc "x"), Except.ok ["b", "c"]]
    [Except.ok ["z"]] "q" (by
      intro r hr msg heq
      fin_cases hr <;> simp_all)
  simpa using h

/-- C4 counterexample: with an absent API key and an insufficient budget,
`_get_with_retry` raises `QuotaExceeded` — the quota ledger is consulted
before credential resolution, so the failure is not the configuration
error the claim requires. -/
theorem executor_order_c4_counterexample :
    (get_with_retry mid86400 0 c2State "search" none (fun a => 200) 3).result =
      Except.error (FetchError.quotaExceeded (insufficientQuotaMsg "search.list" 0)) ∧
    (get_with_retry mid86400 0 c2State "search" none (fun a => 200) 3).result ≠
      Except.error (FetchError.configError apiKeyErrorMsg) := by
  refine ⟨rfl, ?_⟩
  intro h
  rw [show (get_with_retry mid86400 0 c2State "search" none (fun a => 200) 3).result =
    Except.error (FetchError.quotaExceeded (insufficientQuotaMsg "search.list" 0)) from rfl] at h
  simp at h

/-- C4 (amended): `_get_with_retry` consults the quota ledger first: when
`would_fit` fails it raises `QuotaExceeded` with no physical call; only
after the quota check passes does it resolve credentials, and an absent
credential then raises the configuration error, again with no physical
call and no retry. In particular an absent credential never leads to a
physical call, but when the budget is also insufficient the error
surfaced is `QuotaExceeded`, not the configuration error. -/
theorem executor_order_c4 (midnight : Int → Int) (now : Int) (s : LedgerState)
    (path : String) (apiKey : Option String) (transport : Nat → Nat)
    (max_retries : Nat) :
    ((will_fit midnight now s (normalizeEndpoint path) 1 none).1 = false →
      (get_with_retry midnight now s path apiKey transport max_retries).calls = 0 ∧
      (get_with_retry midnight now s path apiKey transport max_retries).result =
        Except.error (FetchError.quotaExceeded (insufficientQuotaMsg (normalizeEndpoint path)
          (remainingAcc midnight now
            (will_fit midnight now s (normalizeEndpoint path) 1 none).2).1))) ∧
    ((will_fit midnight now s (normalizeEndpoint path) 1 none).1 = true → apiKey = none →
      (get_with_retry midnight now s path apiKey transport max_retries).calls = 0 ∧
      (get_with_retry midnight now s path apiKey transport max_retries).result =
        Except.error (FetchError.configError apiKeyErrorMsg)) ∧
    (apiKey = none →
      (get_with_retry midnight now s path apiKey transport max_retries).calls = 0) := by
  rcases hw : will_fit midnight now s (normalizeEndpoint path) 1 none with ⟨b, s1⟩
  refine ⟨?_, ?_, ?_⟩
  · intro hb
    have hb2 : b = false := by simpa using hb
    subst hb2
    simp only [get_with_retry]
    rw [hw]
    exact ⟨rfl, rfl⟩
  · intro hb hkey
    have hb2 : b = true := by simpa using hb
    subst hb2
    subst hkey
    simp only [get_with_retry]
    rw [hw]
    exact ⟨rfl, rfl⟩
  · intro hkey
    subst hkey
    simp only [get_with_retry]
    rw [hw]
    cases b
    · rfl
    · rfl

/-- Witness for C4 (amended) at a concrete input: insufficient budget with
a present key still fails with `QuotaExceeded` and issues no physical
call. -/
theorem executor_order_c4_witness :
    (get_with_retry mid86400 0 c2State "search" (some "k") (fun a => 200) 3).calls = 0 ∧
    (get_with_retry mid86400 0 c2State "search" (some "k") (fun a => 200) 3).result =
      Except.error (FetchError.quotaExceeded (insufficientQuotaMsg "search.list" 0)) :=
  (executor_order_c4 mid86400 0 c2State "search" (some "k") (fun a => 200) 3).1 (by decide)

theorem estimate_cost_maybe_reset (midnight : Int → Int) (now : Int) (s : LedgerState)
    (endpoint : String) (pages : Int) (ov : Option Int) :
    estimate_cost (maybe_reset midnight now s) endpoint pages ov =
      estimate_cost s endpoint pages ov := by
  unfold maybe_reset
  split
  · rfl
  · rfl

theorem record_after_will_fit (midnight : Int → Int) (now : Int) (s : LedgerState)
    (endpoint : String)
    (h : (will_fit midnight now s endpoint 1 none).1 = true) :
    ∃ c s2, record midnight now (will_fit midnight now s endpoint 1 none).2
        endpoint 1 none true = (Except.ok c, s2) := by
  simp only [will_fit] at h ⊢
  have hle : estimate_cost s endpoint 1 none ≤
      (maybe_reset midnight now s).quota_remaining := of_decide_eq_true h
  have hc : ¬ (True ∧
      (maybe_reset midnight now (maybe_reset midnight now s)).quota_remaining <
        estimate_cost (maybe_reset midnight now s) endpoint 1 none) := by
    rintro ⟨-, hlt⟩
    rw [maybe_reset_idem, estimate_cost_maybe_reset] at hlt
    omega
  have hrec : record midnight now (maybe_reset midnight now s) endpoint 1 none true =
      (Except.ok (estimate_cost (maybe_reset midnight now s) endpoint 1 none),
        (record midnight now (maybe_reset midnight now s) endpoint 1 none true).2) := by
    simp only [record]
    rw [if_neg hc]
  exact ⟨_, _, hrec⟩

theorem range_map_pow_step (b m : Nat) :
    b :: (List.range m).map (fun j => b * 2 * 2 ^ j) =
      (List.range (m + 1)).map (fun j => b * 2 ^ j) := by
  rw [List.range_succ_eq_map]
  simp only [List.map_cons, List.map_map, pow_zero, mul_one, List.cons.injEq]
  refine ⟨trivial, ?_⟩
  apply List.map_congr_left
  intro a _
  simp only [Function.comp]
  rw [pow_succ]
  ring

theorem retryGo_transient (transport : Nat → Nat)
    (htr : ∀ a, isTransient (transport a) = true) :
    ∀ (fuel attempt backoff : Nat), 1 ≤ fuel →
      retryGo transport fuel attempt backoff =
        (Except.error (FetchError.httpError (transport (attempt + fuel - 1))), fuel,
          (List.range (fuel - 1)).map (fun j => backoff * 2 ^ j)) := by
  intro fuel
  induction fuel with
  | zero => intro attempt backoff h; exact absurd h (by omega)
  | succ n ih =>
    intro attempt backoff _
    simp only [retryGo]
    rw [if_pos (htr attempt)]
    cases n with
    | zero =>
      rw [if_pos rfl]
      simp
    | succ m =>
      rw [if_neg (by omega), ih (attempt + 1) (backoff * 2) (by omega)]
      have h1 : attempt + 1 + (m + 1) - 1 = attempt + (m + 1 + 1) - 1 := by omega
      have h2 := range_map_pow_step backoff m
      simp only [Prod.mk.injEq]
      exact ⟨by rw [h1], trivial, by simpa using h2⟩

theorem retryGo_nontransient (transport : Nat → Nat) (k : Nat)
    (hk : isTransient (transport k) = false) (hge : 400 ≤ transport k) :
    ∀ (fuel attempt backoff : Nat),
      attempt ≤ k → k < attempt + fuel →
      (∀ a, attempt ≤ a → a < k → isTransient (transport a) = true) →
      retryGo transport fuel attempt backoff =
        (Except.error (FetchError.httpError (transport k)), k - attempt + 1,
          (List.range (k - attempt)).map (fun j => backoff * 2 ^ j)) := by
  intro fuel
  induction fuel with
  | zero => intro attempt backoff h1 h2 _; exact absurd h2 (by omega)
  | succ n ih =>
    intro attempt backoff hak hkf htr
    simp only [retryGo]
    rcases eq_or_lt_of_le hak with heq | hlt
    · subst heq
      rw [if_neg (by simp [hk]), if_pos hge]
      simp
    · rw [if_pos (htr attempt (le_refl _) hlt)]
      cases n with
      | zero => exact absurd hkf (by omega)
      | succ m =>
        rw [if_neg (by omega),
          ih (attempt + 1) (backoff * 2) (by omega) (by omega)
            (fun a ha hb2 => htr a (by omega) hb2)]
        have hsub : k - attempt = (k - (attempt + 1)) + 1 := by omega
        simp only [Prod.mk.injEq]
        refine ⟨trivial, by omega, ?_⟩
        rw [hsub]
        exact range_map_pow_step backoff (k - (attempt + 1))

theorem pairwise_delays (b n : Nat) (hb : 1 ≤ b) :
    ((List.range n).map (fun j => b * 2 ^ j)).Pairwise (· < ·) := by
  refine List.Pairwise.map _ ?_ (List.pairwise_lt_range n)
  intro i j hij
  exact mul_lt_mul_of_pos_left (Nat.pow_lt_pow_right (by norm_num) hij) (by omega)

/-- C5 counterexample: a non-transient non-2xx status does not always fail
immediately — `resp.raise_for_status()` raises only for 4xx/5xx, so a
transport answering 304 (non-transient, non-2xx) makes the call return
the decoded body instead of failing. -/
theorem retry_ceiling_c5_counterexample :
    isTransient 304 = false ∧
    ¬ (200 ≤ 304 ∧ 304 ≤ 299) ∧
    (get_with_retry mid86400 0 richState "videos" (some "k") (fun a => 304) 3).result =
      Except.ok 1 ∧
    (get_with_retry mid86400 0 richState "videos" (some "k") (fun a => 304) 3).calls = 1 := by
  exact ⟨rfl, by decide, rfl, rfl⟩

/-- C5 (amended): for an executor call that passes the quota check with a
present key: against a transport that always answers a transient status,
exactly `max_retries` physical calls are made, separated by
`max_retries - 1` delays that start at the fixed base 2 and double each
time (strictly increasing), and the final transient failure surfaces as a
definitive `HTTPError`; and a non-transient **4xx/5xx** status (rather
than any non-2xx: see the counterexample for 304) fails on the attempt
that observes it, with no further physical calls. -/
theorem retry_ceiling_c5 (midnight : Int → Int) (now : Int) (s : LedgerState)
    (path key : String) (transport : Nat → Nat) (max_retries k : Nat)
    (hfit : (will_fit midnight now s (normalizeEndpoint path) 1 none).1 = true) :
    ((∀ a, isTransient (transport a) = true) → 1 ≤ max_retries →
      (get_with_retry midnight now s path (some key) transport max_retries).calls =
        max_retries ∧
      (get_with_retry midnight now s path (some key) transport max_retries).delays =
        (List.range (max_retries - 1)).map (fun j => 2 * 2 ^ j) ∧
      List.Pairwise (· < ·)
        (get_with_retry midnight now s path (some key) transport max_retries).delays ∧
      (get_with_retry midnight now s path (some key) transport max_retries).result =
        Except.error (FetchError.httpError (transport max_retries))) ∧
    (1 ≤ k → k ≤ max_retries →
      (∀ a, 1 ≤ a → a < k → isTransient (transport a) = true) →
      isTransient (transport k) = false → 400 ≤ transport k →
      (get_with_retry midnight now s path (some key) transport max_retries).calls = k ∧
      (get_with_retry midnight now s path (some key) transport max_retries).result =
        Except.error (FetchError.httpError (transport k)) ∧
      (get_with_retry midnight now s path (some key) transport
        max_retries).delays.length = k - 1) := by
  obtain ⟨c, s2, hrec⟩ := record_after_will_fit midnight now s (normalizeEndpoint path) hfit
  have hw2 : will_fit midnight now s (normalizeEndpoint path) 1 none =
      (true, (will_fit midnight now s (normalizeEndpoint path) 1 none).2) := by
    rw [← hfit]
  constructor
  · intro htr hmr
    have hloop := retryGo_transient transport htr max_retries 1 2 hmr
    have h1 : 1 + max_retries - 1 = max_retries := by omega
    simp only [get_with_retry]
    rw [hw2]
    dsimp only []
    rw [hrec]
    dsimp only []
    rw [hloop, h1]
    exact ⟨rfl, rfl, pairwise_delays 2 (max_retries - 1) (by omega), rfl⟩
  · intro h1k hkm htr hk hge
    have hloop := retryGo_nontransient transport k hk hge max_retries 1 2 h1k (by omega)
      (fun a ha hb2 => htr a ha hb2)
    simp only [get_with_retry]
    rw [hw2]
    dsimp only []
    rw [hrec]
    dsimp only []
    rw [hloop]
    refine ⟨by show k - 1 + 1 = k; omega, rfl, ?_⟩
    show ((List.range (k - 1)).map (fun j => 2 * 2 ^ j)).length = k - 1
    simp

/-- Witness for C5 (amended) at a concrete input: an always-500 transport
with `max_retries = 3` makes exactly 3 calls with doubling delays [2, 4]
and fails with the HTTP error. -/
theorem retry_ceiling_c5_witness :
    (get_with_retry mid86400 0 richState "videos" (some "k") (fun a => 500) 3).calls = 3 ∧
    (get_with_retry mid86400 0 richState "videos" (some "k") (fun a => 500) 3).delays =
      (List.range 2).map (fun j => 2 * 2 ^ j) ∧
    List.Pairwise (· < ·)
      (get_with_retry mid86400 0 richState "videos" (some "k") (fun a => 500) 3).delays ∧
    (get_with_retry mid86400 0 richState "videos" (some "k") (fun a => 500) 3).result =
      Except.error (FetchError.httpError 500) :=
  (retry_ceiling_c5 mid86400 0 richState "videos" "k" (fun a => 500) 3 1
    (by decide)).1 (fun a => rfl) (by omega)

/-- C9: `run_ingest_pipeline` reads the name `report` — at the
insufficient-quota early return, at the per-program breakdown updates,
unconditionally inside its `try` block, and in its `finally` block — but
no assignment to `report` exists anywhere in the function, so every call
raises `NameError` and the function can never return an `IngestReport`,
regardless of the quota check's outcome or which programs are enabled. -/
theorem ingest_namerror_c9 (q k c t : Bool) :
    run_ingest_pipeline q k c t = Except.error (PyError.nameError "report") ∧
    ∀ r, run_ingest_pipeline q k c t ≠ Except.ok r := by
  have h : run_ingest_pipeline q k c t = Except.error (PyError.nameError "report") := by
    cases q <;> cases k <;> cases c <;> cases t <;> rfl
  refine ⟨h, ?_⟩
  intro r hr
  rw [h] at hr
  exact Except.noConfusion hr

/-- Witness for C9 at a concrete input: all programs enabled and
sufficient quota still produce the `NameError`. -/
theorem ingest_namerror_c9_witness :
    run_ingest_pipeline true true true true = Except.error (PyError.nameError "report") :=
  (ingest_namerror_c9 true true true true).1

/-- C10 counterexample: the quota-exhaustion messages do not state when
the budget resets — two ledgers that differ only in their stored reset
instant produce byte-identical `QuotaExceeded` messages, from
`YoutubeQuotaManager.record` and from `_get_with_retry`'s pre-flight check
alike, so the message cannot convey the reset time. -/
theorem quota_msgs_c10_counterexample :
    c10StateA.quota_reset_time ≠ c10StateB.quota_reset_time ∧
    (record mid86400 0 c10StateA "search.list" 1 none true).1 =
      Except.error (recordQuotaMsg 100 "search.list" 1 0 100) ∧
    (record mid86400 0 c10StateA "search.list" 1 none true).1 =
      (record mid86400 0 c10StateB "search.list" 1 none true).1 ∧
    (get_with_retry mid86400 0 c10StateA "search" none (fun a => 200) 3).result =
      (get_with_retry mid86400 0 c10StateB "search" none (fun a => 200) 3).result := by
  exact ⟨by decide, rfl, rfl, rfl⟩

/-- C10 (amended): `record`'s `QuotaExceeded` message states the units
needed and the units remaining (and the cap), `_get_with_retry`'s
pre-flight `QuotaExceeded` message states the units remaining only, and
neither states when the budget resets (see the counterexample); the
missing-credential message names the missing setting `YOUTUBE_API_KEY`
and where to obtain it. -/
theorem quota_msgs_c10 (add : Int) (ep : String) (pg rem cap : Int) :
    strContains (recordQuotaMsg add ep pg rem cap) (toString add) ∧
    strContains (recordQuotaMsg add ep pg rem cap) (toString rem) ∧
    strContains (insufficientQuotaMsg ep rem) (toString rem) ∧
    strContains apiKeyErrorMsg "YOUTUBE_API_KEY" ∧
    strContains apiKeyErrorMsg "https://console.cloud.google.com/apis/credentials" := by
  refine ⟨recordQuotaMsg_contains_needed add ep pg rem cap,
    recordQuotaMsg_contains_remaining add ep pg rem cap, ?_, ?_, ?_⟩
  · refine ⟨("Insufficient quota for " ++ ep ++ ". Remaining: ").data, [], ?_⟩
    simp [insufficientQuotaMsg, String.data_append]
  · exact ⟨[], (" is not set. Please set this environment variable.\n" ++
      "Get your API key from: https://console.cloud.google.com/apis/credentials").data, rfl⟩
  · exact ⟨("YOUTUBE_API_KEY is not set. Please set this environment variable.\n" ++
      "Get your API key from: ").data, [], by decide⟩

end CTA
